import Mathlib

/-!
# A verification development for critcmp's `src/output.rs`

The source file renders grouped benchmark measurements.  Its data model and
the operations under scrutiny are embedded here over exact rationals `ℚ`
(standing for the source's `f64` values: every constant appearing in the
source is exactly representable, and all the properties proved here concern
branch structure and exact field algebra, not rounding).

Mapping from the Rust source (`src/output.rs`):
* `Benchmark`, `Comparison`, `Comparisons` — the three structs;
* `Comparison::new`, `biggest_difference`, `best`, `worst`, `first`,
  `get_by_perf`, `get_by_cmdline`, `get` — constructor and queries;
* `Comparisons::drop_under`, `set_colors_benchmark_mode`,
  `set_colors_baseline_mode` — filtering and color policy;
* `time`, `throughput`, `throughput_per` — the scalar formatters.

`BTreeMap<String, Benchmark>` is modelled as a key-sorted association list
with insert-or-replace semantics (`btreeInsert`); `str::split('/')` is
modelled character by character (`splitSlash`); Rust's stable `sort_by` on
the total key `nanoseconds` is modelled by `List.insertionSort`, which is
stable and sorts by the same key, and a stable sort of a list by a total
key is unique.  `usize` subtraction in `Comparison::worst` overflows for an
empty ordering; it is modelled with the release-profile wrapping semantics,
explicitly as `(len + (2^64 - 1)) % 2^64`.
-/

namespace Critcmp

/-- `data::Throughput`: a throughput tagged as bytes per run or elements
per run. -/
inductive Throughput : Type
  | bytes (per : ℚ)
  | elements (per : ℚ)
  deriving DecidableEq

/-- The `Benchmark` struct of `output.rs`: one named measurement. -/
structure Benchmark : Type where
  name : String
  nanoseconds : ℚ
  stddev : Option ℚ
  throughput : Option Throughput
  deriving DecidableEq

/-- `Benchmark::name(self, name)`, the copy-with-new-name operation (named
`rename` here because the field `name` occupies that identifier). -/
def Benchmark.rename (b : Benchmark) (name : String) : Benchmark :=
  { b with name := name }

/-- Modelled from the spec: the ranking mode of `app::RankingConfig`
(`app.rs` is not part of the sources), Baseline vs Benchmark. -/
inductive RankingConfig : Type
  | baseline
  | benchmark
  deriving DecidableEq

/-- Modelled from the spec: `app::ValueFormat`, decimal multiplier vs
percentage display. -/
inductive ValueFormat : Type
  | real
  | percent
  deriving DecidableEq

/-- Modelled from the spec: `app::DisplayConfig`, the three display
settings. -/
structure DisplayConfig : Type where
  list : Bool
  rank : RankingConfig
  value_format : ValueFormat
  deriving DecidableEq

/-- The two foreground colors of `termcolor::Color` that `output.rs`
uses. -/
inductive TermColor : Type
  | red
  | green
  deriving DecidableEq

/-- Lexicographic comparison of character lists: the `Ord` that Rust's
`BTreeMap<String, _>` sorts its keys by (UTF-8 byte order coincides with
code-point order). -/
def charListLtb : List Char → List Char → Bool
  | [], [] => false
  | [], _ :: _ => true
  | _ :: _, [] => false
  | a :: as, b :: bs => if a < b then true else if b < a then false else charListLtb as bs

/-- The key order of the `BTreeMap<String, Benchmark>` model. -/
def strLtb (a b : String) : Bool :=
  charListLtb a.data b.data

/-- Insert-or-replace into a key-sorted association list: the model of
`BTreeMap::insert` used when `Comparison::new` collects its benchmarks. -/
def btreeInsert (k : String) (v : Benchmark) :
    List (String × Benchmark) → List (String × Benchmark)
  | [] => [(k, v)]
  | (k', v') :: rest =>
    if strLtb k k' then (k, v) :: (k', v') :: rest
    else if k = k' then (k, v) :: rest
    else (k', v') :: btreeInsert k v rest

/-- Lookup in the association-list model of `BTreeMap`. -/
def btreeLookup (k : String) : List (String × Benchmark) → Option Benchmark
  | [] => none
  | (k', v) :: rest => if k = k' then some v else btreeLookup k rest

/-- `benchmarks.into_iter().map(|b| (b.name.clone(), b)).collect()`:
build the map by inserting each benchmark under its name, in input
order. -/
def btreeOfList (l : List Benchmark) : List (String × Benchmark) :=
  l.foldl (fun m b => btreeInsert b.name b m) []

/-- Character-level model of Rust's `str::split('/')`: split into the
(possibly empty) segments between occurrences of `'/'`. -/
def splitSlash : List Char → List (List Char)
  | [] => [[]]
  | c :: rest =>
    if c = '/' then [] :: splitSlash rest
    else
      match splitSlash rest with
      | [] => [[c]]
      | h :: t => (c :: h) :: t

/-- `name.split('/').collect::<Vec<_>>()` on a `String`. -/
def splitOnSlash (s : String) : List String :=
  (splitSlash s.data).map String.mk

/-- The comparator of `Comparison::new`'s `sort_by` call:
`a.nanoseconds.partial_cmp(&b.nanoseconds)`, a total order on the
domain. -/
def nanosLE (a b : Benchmark) : Prop :=
  a.nanoseconds ≤ b.nanoseconds

instance : DecidableRel nanosLE := fun a b =>
  inferInstanceAs (Decidable (a.nanoseconds ≤ b.nanoseconds))

instance : IsTotal Benchmark nanosLE :=
  ⟨fun a b => le_total a.nanoseconds b.nanoseconds⟩

instance : IsTrans Benchmark nanosLE :=
  ⟨fun _ _ _ h h' => le_trans h h'⟩

instance : IsRefl Benchmark nanosLE :=
  ⟨fun a => le_refl a.nanoseconds⟩

/-- `benchmarks.sort_by(|a, b| a.nanoseconds.partial_cmp(&b.nanoseconds).unwrap())`:
a stable ascending sort by duration.  `List.insertionSort` is stable, and a
stable sort by a total key is unique, so it coincides with Rust's stable
`sort_by`. -/
def sortByNanos (l : List Benchmark) : List Benchmark :=
  l.insertionSort nanosLE

/-- The `Comparison` struct of `output.rs`. -/
structure Comparison : Type where
  name : String
  group : Option String
  benchmarks : List (String × Benchmark)
  perf_ordered : List String
  cmdline_ordered : List String
  deriving DecidableEq

/-- `Comparison::new`: split the identifier at `'/'` into optional group
and name, build the name-keyed map, and (for a non-empty map) record the
command-line order and the duration-sorted order. -/
def Comparison.new (name : String) (benchmarks : List Benchmark) : Comparison :=
  let gn : Option String × String :=
    match splitOnSlash name with
    | g :: n :: _ => (some g, n)
    | [p] => (none, p)
    | [] => (none, "")
  let bmap := btreeOfList benchmarks
  if bmap.isEmpty then
    { name := gn.2, group := gn.1, benchmarks := bmap
      perf_ordered := [], cmdline_ordered := [] }
  else
    { name := gn.2, group := gn.1, benchmarks := bmap
      perf_ordered := (sortByNanos benchmarks).map Benchmark.name
      cmdline_ordered := benchmarks.map Benchmark.name }

/-- `Comparison::get_by_perf`: index into the performance ranking, then
look the name up in the map. -/
def Comparison.get_by_perf (c : Comparison) (pos : Nat) : Option Benchmark :=
  (c.perf_ordered.get? pos).bind fun n => btreeLookup n c.benchmarks

/-- `Comparison::get_by_cmdline`. -/
def Comparison.get_by_cmdline (c : Comparison) (pos : Nat) : Option Benchmark :=
  (c.cmdline_ordered.get? pos).bind fun n => btreeLookup n c.benchmarks

/-- `Comparison::best`: performance rank 0. -/
def Comparison.best (c : Comparison) : Option Benchmark :=
  c.get_by_perf 0

/-- `Comparison::worst`: performance rank `perf_ordered.len() - 1`.  The
`usize` subtraction wraps when the ordering is empty (release profile);
the wrap is written out as `(len + (2^64 - 1)) % 2^64`. -/
def Comparison.worst (c : Comparison) : Option Benchmark :=
  c.get_by_perf ((c.perf_ordered.length + 18446744073709551615) % 18446744073709551616)

/-- `Comparison::first`: command-line rank 0. -/
def Comparison.first (c : Comparison) : Option Benchmark :=
  c.get_by_cmdline 0

/-- `Comparison::get`. -/
def Comparison.get (c : Comparison) (name : String) : Option Benchmark :=
  btreeLookup name c.benchmarks

/-- `Comparison::biggest_difference`: `0` below two benchmarks, otherwise
`((worst - best) / best) * 100`.  The source's `unwrap()` calls are total
there for constructor-built comparisons; they are modelled by `getD 0`. -/
def Comparison.biggest_difference (c : Comparison) : ℚ :=
  if c.benchmarks.length < 2 then 0
  else
    let best := (c.best.map Benchmark.nanoseconds).getD 0
    let worst := (c.worst.map Benchmark.nanoseconds).getD 0
    ((worst - best) / best) * 100

/-- The `Comparisons` struct of `output.rs`: the comparison sequence plus
the display configuration. -/
structure Comparisons : Type where
  comps : List Comparison
  config : DisplayConfig
  deriving DecidableEq

/-- `Comparisons::drop_under`:
`self.comps.retain(|comp| comp.biggest_difference() > threshold)`. -/
def Comparisons.drop_under (cs : Comparisons) (threshold : ℚ) : Comparisons :=
  { cs with comps := cs.comps.filter fun comp => threshold < comp.biggest_difference }

/-- `Comparisons::set_colors_benchmark_mode`: green-bold exactly when the
current duration equals the best duration. -/
def Comparisons.set_colors_benchmark_mode (_cs : Comparisons) (comp : Comparison)
    (current : ℚ) : Option (TermColor × Bool) :=
  let best := (comp.best.map Benchmark.nanoseconds).getD 0
  if best = current then some (TermColor.green, true) else none

/-- `Comparisons::set_colors_baseline_mode`: thresholds 0.03 and 0.1 on the
deviation of `current / first` from 1, red above the baseline and green
below it, bold past the second threshold. -/
def Comparisons.set_colors_baseline_mode (_cs : Comparisons) (comp : Comparison)
    (current : ℚ) : Option (TermColor × Bool) :=
  let first := (comp.first.map Benchmark.nanoseconds).getD 0
  let val := current / first
  let diff := val - 1
  if 0 < diff then
    if diff < 3 / 100 then none
    else if diff < 1 / 10 then some (TermColor.red, false)
    else some (TermColor.red, true)
  else
    let diff' := -diff
    if diff' < 3 / 100 then none
    else if diff' < 1 / 10 then some (TermColor.green, false)
    else some (TermColor.green, true)

/-- The claim C4's reading of the baseline color policy, phrased on the
absolute deviation `|diff|`: no color below 0.03, normal weight below 0.1,
bold from 0.1 on; red for a positive deviation, green otherwise. -/
def baselineColorSpec (diff : ℚ) : Option (TermColor × Bool) :=
  if |diff| < 3 / 100 then none
  else if |diff| < 1 / 10 then
    some (if 0 < diff then TermColor.red else TermColor.green, false)
  else
    some (if 0 < diff then TermColor.red else TermColor.green, true)

/-- Left-pad a digit string with zeros to the requested width. -/
def padZeros (width : Nat) (s : String) : String :=
  String.mk (List.replicate (width - s.length) '0') ++ s

/-- Model of Rust's fixed-precision formatting `{:.prec$}` on an exact
rational: round to `prec` decimal places, ties to even, then print with
exactly `prec` fractional digits. -/
def fmtFixed (q : ℚ) (prec : Nat) : String :=
  let scaled : ℚ := q * (10 : ℚ) ^ prec
  let fl : ℤ := ⌊scaled⌋
  let frac : ℚ := scaled - (fl : ℚ)
  let r : ℤ :=
    if 1 / 2 < frac then fl + 1
    else if frac < 1 / 2 then fl
    else if fl % 2 = 0 then fl else fl + 1
  let sign := if r < 0 then "-" else ""
  let n : ℕ := r.natAbs
  if prec = 0 then sign ++ toString n
  else sign ++ toString (n / 10 ^ prec) ++ "." ++ padZeros prec (toString (n % 10 ^ prec))

/-- The unit selection of `fn time`: `(divisor, label)` from the raw
nanosecond value, thresholds 2 000 / 2 000 000 / 2 000 000 000. -/
def timeUnit (nanos : ℚ) : ℚ × String :=
  if nanos < 2000 then (1, "ns")
  else if nanos < 2000000 then (1000, "µs")
  else if nanos < 2000000000 then (1000000, "ms")
  else (1000000000, "s")

/-- `fn time`: scale the value (one decimal place) and the optional stddev
(two decimal places) by the selected divisor. -/
def time (nanos : ℚ) (stddev : Option ℚ) : String :=
  let du := timeUnit nanos
  match stddev with
  | some sd => fmtFixed (nanos / du.1) 1 ++ "±" ++ fmtFixed (sd / du.1) 2 ++ du.2
  | none => fmtFixed (nanos / du.1) 1 ++ du.2

/-- Rust's `per as u64` for the first branch of `throughput_per`:
truncation toward zero, clamped to `u64`'s range. -/
def truncU64 (q : ℚ) : ℕ :=
  if q ≤ 0 then 0 else min ⌊q⌋.toNat 18446744073709551615

/-- `fn throughput_per`: binary-scaled units with thresholds `2 * 2^10`,
`2 * 2^20`, `2 * 2^30`. -/
def throughput_per (per : ℚ) (unit : String) : String :=
  if per < 2048 then toString (truncU64 per) ++ " " ++ unit ++ "/sec"
  else if per < 2097152 then fmtFixed (per / 1024) 1 ++ " K" ++ unit ++ "/sec"
  else if per < 2147483648 then fmtFixed (per / 1048576) 1 ++ " M" ++ unit ++ "/sec"
  else fmtFixed (per / 1073741824) 1 ++ " G" ++ unit ++ "/sec"

/-- `fn throughput`: dispatch on the optional tagged throughput. -/
def throughput : Option Throughput → String
  | some (Throughput.bytes num) => throughput_per num "B"
  | some (Throughput.elements num) => throughput_per num "Elem"
  | none => "? ?/sec"

/-! ## The claims' conclusions, as named predicates -/

/-- Claim C2's conclusion for an input list `l` of pairwise distinctly
named benchmarks: `biggest_difference` is `0` below two benchmarks,
otherwise the percentage spread between the slowest and the fastest, and
it is invariant under permutations of the input list. -/
def BiggestDifferenceClaim (nm : String) (l : List Benchmark) : Prop :=
  (l.length < 2 → (Comparison.new nm l).biggest_difference = 0)
  ∧ (2 ≤ l.length → l.length < 18446744073709551616 →
      ∃ bb wb, (Comparison.new nm l).best = some bb
        ∧ (Comparison.new nm l).worst = some wb
        ∧ bb ∈ l ∧ wb ∈ l
        ∧ (∀ b ∈ l, bb.nanoseconds ≤ b.nanoseconds ∧ b.nanoseconds ≤ wb.nanoseconds)
        ∧ (Comparison.new nm l).biggest_difference =
            ((wb.nanoseconds - bb.nanoseconds) / bb.nanoseconds) * 100)
  ∧ (∀ l', l.Perm l' →
      (Comparison.new nm l').biggest_difference = (Comparison.new nm l).biggest_difference)

/-- Claim C3's conclusion: `cmdline_ordered` is the input order,
`perf_ordered` is the stable duration sort of the input (sorted,
a permutation, ties in input order), both orderings are permutations of
the benchmark map's key set, and an empty input yields empty fields. -/
def OrderingsClaim (nm : String) (l : List Benchmark) : Prop :=
  (Comparison.new nm l).cmdline_ordered = l.map Benchmark.name
  ∧ (Comparison.new nm l).perf_ordered = (sortByNanos l).map Benchmark.name
  ∧ (sortByNanos l).Perm l
  ∧ List.Sorted nanosLE (sortByNanos l)
  ∧ (∀ q : ℚ, (sortByNanos l).filter (fun b => decide (b.nanoseconds = q)) =
      l.filter (fun b => decide (b.nanoseconds = q)))
  ∧ ((Comparison.new nm l).perf_ordered).Perm ((Comparison.new nm l).benchmarks.map Prod.fst)
  ∧ ((Comparison.new nm l).cmdline_ordered).Perm ((Comparison.new nm l).benchmarks.map Prod.fst)
  ∧ (l = [] → (Comparison.new nm l).benchmarks = []
      ∧ (Comparison.new nm l).perf_ordered = []
      ∧ (Comparison.new nm l).cmdline_ordered = [])

/-- Claim C5's conclusion: in Benchmark ranking mode the cell is colored
green-bold exactly when the current duration equals the best (minimum)
duration, and uncolored otherwise. -/
def BenchColorClaim (cs : Comparisons) (nm : String) (l : List Benchmark)
    (current : ℚ) : Prop :=
  ∃ bb, (Comparison.new nm l).best = some bb ∧ bb ∈ l
    ∧ (∀ b ∈ l, bb.nanoseconds ≤ b.nanoseconds)
    ∧ (cs.set_colors_benchmark_mode (Comparison.new nm l) current =
          some (TermColor.green, true) ↔ current = bb.nanoseconds)
    ∧ (cs.set_colors_benchmark_mode (Comparison.new nm l) current = none ↔
        current ≠ bb.nanoseconds)

/-- Claim C6's conclusion: the time formatter's unit selection intervals,
the divisor attached to each unit, and the shape of the output string. -/
def TimeClaim (n : ℚ) (sd : Option ℚ) : Prop :=
  ((timeUnit n).2 = "ns" ↔ n < 2000)
  ∧ ((timeUnit n).2 = "µs" ↔ 2000 ≤ n ∧ n < 2000000)
  ∧ ((timeUnit n).2 = "ms" ↔ 2000000 ≤ n ∧ n < 2000000000)
  ∧ ((timeUnit n).2 = "s" ↔ 2000000000 ≤ n)
  ∧ (n < 2000 → (timeUnit n).1 = 1)
  ∧ (2000 ≤ n → n < 2000000 → (timeUnit n).1 = 1000)
  ∧ (2000000 ≤ n → n < 2000000000 → (timeUnit n).1 = 1000000)
  ∧ (2000000000 ≤ n → (timeUnit n).1 = 1000000000)
  ∧ (sd = none → time n sd = fmtFixed (n / (timeUnit n).1) 1 ++ (timeUnit n).2)
  ∧ (∀ s, sd = some s → time n sd =
      fmtFixed (n / (timeUnit n).1) 1 ++ "±" ++ fmtFixed (s / (timeUnit n).1) 2 ++ (timeUnit n).2)

/-- Claim C7's conclusion: the placeholder for an absent throughput, the
byte/element unit texts, and the binary-scaled branch selection. -/
def ThroughputClaim (t : ℚ) (u : String) : Prop :=
  throughput none = "? ?/sec"
  ∧ throughput (some (Throughput.bytes t)) = throughput_per t "B"
  ∧ throughput (some (Throughput.elements t)) = throughput_per t "Elem"
  ∧ (t < 2048 → throughput_per t u = toString ⌊t⌋.toNat ++ " " ++ u ++ "/sec")
  ∧ (2048 ≤ t → t < 2 * 2 ^ 20 → throughput_per t u =
      fmtFixed (t / 2 ^ 10) 1 ++ " K" ++ u ++ "/sec")
  ∧ (2 * 2 ^ 20 ≤ t → t < 2 * 2 ^ 30 → throughput_per t u =
      fmtFixed (t / 2 ^ 20) 1 ++ " M" ++ u ++ "/sec")
  ∧ (2 * 2 ^ 30 ≤ t → throughput_per t u =
      fmtFixed (t / 2 ^ 30) 1 ++ " G" ++ u ++ "/sec")

/-- Claim C9's conclusion: `worst()` is absent on an empty comparison and
otherwise is the benchmark at performance rank `count - 1`, a slowest
one. -/
def WorstClaim (nm : String) (l : List Benchmark) : Prop :=
  (l = [] → (Comparison.new nm l).worst = none)
  ∧ (l ≠ [] → l.length < 18446744073709551616 →
      ∃ wb, (Comparison.new nm l).worst = some wb
        ∧ (Comparison.new nm l).worst =
            (Comparison.new nm l).get_by_perf ((Comparison.new nm l).perf_ordered.length - 1)
        ∧ wb ∈ l ∧ ∀ b ∈ l, b.nanoseconds ≤ wb.nanoseconds)

end Critcmp

namespace Critcmp

/-! ## Association-list map lemmas -/

theorem btreeInsert_ne_nil (k : String) (v : Benchmark) (m : List (String × Benchmark)) :
    btreeInsert k v m ≠ [] := by
  cases m with
  | nil => simp [btreeInsert]
  | cons kv rest =>
    obtain ⟨k', v'⟩ := kv
    simp only [btreeInsert]
    split_ifs <;> simp

theorem btreeLookup_insert_self (k : String) (v : Benchmark)
    (m : List (String × Benchmark)) :
    btreeLookup k (btreeInsert k v m) = some v := by
  induction m with
  | nil => simp [btreeInsert, btreeLookup]
  | cons kv rest ih =>
    obtain ⟨k', v'⟩ := kv
    simp only [btreeInsert]
    split_ifs with h1 h2
    · simp [btreeLookup]
    · simp [btreeLookup]
    · simp [btreeLookup, h2, ih]

theorem btreeLookup_insert_ne {j k : String} (h : j ≠ k) (v : Benchmark)
    (m : List (String × Benchmark)) :
    btreeLookup j (btreeInsert k v m) = btreeLookup j m := by
  induction m with
  | nil => simp [btreeInsert, btreeLookup, h]
  | cons kv rest ih =>
    obtain ⟨k', v'⟩ := kv
    simp only [btreeInsert]
    split_ifs with h1 h2
    · simp [btreeLookup, h]
    · subst h2
      simp [btreeLookup, h]
    · simp [btreeLookup, ih]

theorem keys_btreeInsert_fresh (k : String) (v : Benchmark)
    (m : List (String × Benchmark)) (h : k ∉ m.map Prod.fst) :
    ((btreeInsert k v m).map Prod.fst).Perm (k :: m.map Prod.fst) := by
  induction m with
  | nil => simp [btreeInsert]
  | cons kv rest ih =>
    obtain ⟨k', v'⟩ := kv
    simp only [List.map_cons, List.mem_cons] at h
    push_neg at h
    simp only [btreeInsert]
    split_ifs with h1 h2
    · simp
    · exact absurd h2 h.1
    · simp only [List.map_cons]
      exact ((ih h.2).cons k').trans (List.Perm.swap k k' _)

theorem foldl_insert_ne_nil (l : List Benchmark) (m : List (String × Benchmark))
    (h : m ≠ []) :
    List.foldl (fun m b => btreeInsert b.name b m) m l ≠ [] := by
  induction l generalizing m with
  | nil => simpa
  | cons b rest ih => exact ih _ (btreeInsert_ne_nil _ _ _)

theorem btreeOfList_eq_nil_iff (l : List Benchmark) : btreeOfList l = [] ↔ l = [] := by
  constructor
  · intro h
    cases l with
    | nil => rfl
    | cons b rest =>
      refine absurd h ?_
      simp only [btreeOfList, List.foldl_cons]
      exact foldl_insert_ne_nil rest _ (btreeInsert_ne_nil _ _ _)
  · rintro rfl
    rfl

theorem btreeLookup_foldl_fresh {j : String} (l : List Benchmark)
    (m : List (String × Benchmark)) (h : j ∉ l.map Benchmark.name) :
    btreeLookup j (List.foldl (fun m b => btreeInsert b.name b m) m l) = btreeLookup j m := by
  induction l generalizing m with
  | nil => rfl
  | cons b rest ih =>
    simp only [List.map_cons, List.mem_cons] at h
    push_neg at h
    rw [List.foldl_cons, ih _ h.2, btreeLookup_insert_ne h.1]

theorem keys_foldl_insert (l : List Benchmark) (m : List (String × Benchmark))
    (h : (m.map Prod.fst ++ l.map Benchmark.name).Nodup) :
    ((List.foldl (fun m b => btreeInsert b.name b m) m l).map Prod.fst).Perm
      (m.map Prod.fst ++ l.map Benchmark.name) := by
  induction l generalizing m with
  | nil => simp
  | cons b rest ih =>
    simp only [List.foldl_cons]
    have hfresh : b.name ∉ m.map Prod.fst := by
      intro hmem
      have hdisj := List.disjoint_of_nodup_append h
      exact hdisj hmem (by simp)
    have hkeys := keys_btreeInsert_fresh b.name b m hfresh
    have hperm : ((btreeInsert b.name b m).map Prod.fst ++ rest.map Benchmark.name).Perm
        (m.map Prod.fst ++ (b :: rest).map Benchmark.name) := by
      refine (hkeys.append_right _).trans ?_
      simpa using List.perm_middle.symm
    have h' : ((btreeInsert b.name b m).map Prod.fst ++ rest.map Benchmark.name).Nodup :=
      hperm.nodup_iff.mpr h
    exact (ih _ h').trans hperm

theorem btreeLookup_foldl_self (l : List Benchmark) (hn : (l.map Benchmark.name).Nodup) :
    ∀ (m : List (String × Benchmark)), ∀ b ∈ l,
      btreeLookup b.name (List.foldl (fun m b => btreeInsert b.name b m) m l) = some b := by
  induction l with
  | nil =>
    intro m b hb
    cases hb
  | cons b₀ rest ih =>
    simp only [List.map_cons, List.nodup_cons] at hn
    intro m b hb
    rcases List.mem_cons.mp hb with rfl | hb'
    · rw [List.foldl_cons, btreeLookup_foldl_fresh rest _ hn.1, btreeLookup_insert_self]
    · exact ih hn.2 _ b hb'

theorem keys_btreeOfList {l : List Benchmark} (hn : (l.map Benchmark.name).Nodup) :
    ((btreeOfList l).map Prod.fst).Perm (l.map Benchmark.name) := by
  simpa using keys_foldl_insert l [] (by simpa using hn)

theorem btreeLookup_btreeOfList {l : List Benchmark} (hn : (l.map Benchmark.name).Nodup)
    {b : Benchmark} (hb : b ∈ l) :
    btreeLookup b.name (btreeOfList l) = some b :=
  btreeLookup_foldl_self l hn [] b hb

theorem length_btreeOfList {l : List Benchmark} (hn : (l.map Benchmark.name).Nodup) :
    (btreeOfList l).length = l.length := by
  have := (keys_btreeOfList hn).length_eq
  simpa using this

end Critcmp

namespace Critcmp

/-! ## Sort lemmas -/

theorem sortByNanos_perm (l : List Benchmark) : (sortByNanos l).Perm l :=
  List.perm_insertionSort nanosLE l

theorem sortByNanos_sorted (l : List Benchmark) : List.Sorted nanosLE (sortByNanos l) :=
  List.sorted_insertionSort nanosLE l

/-- Stability of the duration sort, as a filter identity: among benchmarks
of any one duration the sort keeps the original relative order. -/
theorem sortByNanos_filter (l : List Benchmark) (q : ℚ) :
    (sortByNanos l).filter (fun b => decide (b.nanoseconds = q)) =
      l.filter (fun b => decide (b.nanoseconds = q)) := by
  set p : Benchmark → Bool := fun b => decide (b.nanoseconds = q) with hp
  have hmemq : ∀ a ∈ l.filter p, a.nanoseconds = q := by
    intro a ha
    have := (List.mem_filter.mp ha).2
    rw [hp] at this
    exact of_decide_eq_true this
  have hpair : (l.filter p).Pairwise nanosLE := by
    refine List.pairwise_of_forall_mem_list ?_
    intro a ha b hb
    show a.nanoseconds ≤ b.nanoseconds
    rw [hmemq a ha, hmemq b hb]
  have h1 : (l.filter p).Sublist (sortByNanos l) :=
    List.sublist_insertionSort hpair (List.filter_sublist l)
  have h2 : (l.filter p).Sublist ((sortByNanos l).filter p) := by
    have h3 := h1.filter p
    rwa [List.filter_eq_self.mpr (fun a ha => (List.mem_filter.mp ha).2)] at h3
  have h4 : ((sortByNanos l).filter p).Perm (l.filter p) := (sortByNanos_perm l).filter p
  exact (h2.eq_of_length h4.length_eq.symm).symm

theorem sorted_get_last_max {s : List Benchmark} {y : Benchmark}
    (hs : List.Sorted nanosLE s) (hy : s.get? (s.length - 1) = some y) :
    ∀ b ∈ s, b.nanoseconds ≤ y.nanoseconds := by
  intro b hb
  obtain ⟨i, hi⟩ := List.mem_iff_get.mp hb
  obtain ⟨hlt, hget⟩ := List.get?_eq_some.mp hy
  have hle : i ≤ (⟨s.length - 1, hlt⟩ : Fin s.length) := by
    show i.val ≤ s.length - 1
    have := i.isLt
    omega
  have hrel := hs.rel_get_of_le hle
  rw [hi, hget] at hrel
  exact hrel

/-! ## `Comparison::new` lemmas -/

theorem new_benchmarks (nm : String) (l : List Benchmark) :
    (Comparison.new nm l).benchmarks = btreeOfList l := by
  unfold Comparison.new
  split <;> (dsimp only; split <;> rfl)

theorem new_cmdline (nm : String) (l : List Benchmark) :
    (Comparison.new nm l).cmdline_ordered = l.map Benchmark.name := by
  unfold Comparison.new
  split <;> (dsimp only; split) <;>
    first
      | rfl
      | (rename_i h
         have hl : l = [] := (btreeOfList_eq_nil_iff l).mp (List.isEmpty_iff.mp h)
         subst hl
         rfl)

theorem new_perf (nm : String) (l : List Benchmark) :
    (Comparison.new nm l).perf_ordered = (sortByNanos l).map Benchmark.name := by
  unfold Comparison.new
  split <;> (dsimp only; split) <;>
    first
      | rfl
      | (rename_i h
         have hl : l = [] := (btreeOfList_eq_nil_iff l).mp (List.isEmpty_iff.mp h)
         subst hl
         rfl)

theorem new_perf_length (nm : String) (l : List Benchmark) :
    (Comparison.new nm l).perf_ordered.length = l.length := by
  rw [new_perf, List.length_map, (sortByNanos_perm l).length_eq]

theorem get_by_perf_new (nm : String) {l : List Benchmark}
    (hn : (l.map Benchmark.name).Nodup) (pos : Nat) :
    (Comparison.new nm l).get_by_perf pos = (sortByNanos l).get? pos := by
  unfold Comparison.get_by_perf
  rw [new_perf, new_benchmarks, List.get?_map]
  cases hs : (sortByNanos l).get? pos with
  | none => rfl
  | some b =>
    have hb : b ∈ l := (sortByNanos_perm l).subset (List.get?_mem hs)
    simpa using btreeLookup_btreeOfList hn hb

theorem best_new (nm : String) {l : List Benchmark}
    (hn : (l.map Benchmark.name).Nodup) :
    (Comparison.new nm l).best = (sortByNanos l).get? 0 :=
  get_by_perf_new nm hn 0

theorem worst_new (nm : String) {l : List Benchmark}
    (hn : (l.map Benchmark.name).Nodup) :
    (Comparison.new nm l).worst =
      (sortByNanos l).get? ((l.length + 18446744073709551615) % 18446744073709551616) := by
  unfold Comparison.worst
  rw [new_perf_length, get_by_perf_new nm hn]

theorem first_new (nm : String) {b : Benchmark} {rest : List Benchmark}
    (hn : ((b :: rest).map Benchmark.name).Nodup) :
    (Comparison.new nm (b :: rest)).first = some b := by
  unfold Comparison.first Comparison.get_by_cmdline
  rw [new_cmdline, new_benchmarks]
  simpa using btreeLookup_btreeOfList hn (List.mem_cons_self b rest)

end Critcmp

namespace Critcmp

theorem sorted_get_head_min {s : List Benchmark} {y : Benchmark}
    (hs : List.Sorted nanosLE s) (hy : s.get? 0 = some y) :
    ∀ b ∈ s, y.nanoseconds ≤ b.nanoseconds := by
  intro b hb
  obtain ⟨i, hi⟩ := List.mem_iff_get.mp hb
  obtain ⟨hlt, hget⟩ := List.get?_eq_some.mp hy
  have hle : (⟨0, hlt⟩ : Fin s.length) ≤ i := by
    show 0 ≤ i.val
    omega
  have hrel := hs.rel_get_of_le hle
  rw [hi, hget] at hrel
  exact hrel

/-- `biggest_difference` of a freshly constructed comparison, written on
the sorted duration list. -/
theorem bd_formula (nm : String) {l : List Benchmark}
    (hn : (l.map Benchmark.name).Nodup) :
    (Comparison.new nm l).biggest_difference =
      if l.length < 2 then 0
      else
        ((((sortByNanos l).map Benchmark.nanoseconds).get?
              ((l.length + 18446744073709551615) % 18446744073709551616)).getD 0 -
            (((sortByNanos l).map Benchmark.nanoseconds).get? 0).getD 0) /
          (((sortByNanos l).map Benchmark.nanoseconds).get? 0).getD 0 * 100 := by
  unfold Comparison.biggest_difference
  rw [new_benchmarks, length_btreeOfList hn, best_new nm hn, worst_new nm hn,
    List.get?_map, List.get?_map]

/-- The sorted duration list only depends on the input's multiset. -/
theorem sortByNanos_map_nanos_perm {l l' : List Benchmark} (hp : l.Perm l') :
    (sortByNanos l).map Benchmark.nanoseconds = (sortByNanos l').map Benchmark.nanoseconds := by
  refine List.eq_of_perm_of_sorted (r := fun a b : ℚ => a ≤ b) ?_ ?_ ?_
  · exact ((sortByNanos_perm l).map _).trans ((hp.map _).trans ((sortByNanos_perm l').map _).symm)
  · exact List.pairwise_map.mpr (sortByNanos_sorted l)
  · exact List.pairwise_map.mpr (sortByNanos_sorted l')

/-! ## `splitSlash` lemmas -/

theorem splitSlash_ne_nil (s : List Char) : splitSlash s ≠ [] := by
  cases s with
  | nil => simp [splitSlash]
  | cons c rest =>
    simp only [splitSlash]
    split_ifs
    · simp
    · split <;> simp

theorem splitSlash_no_slash {s : List Char} (h : '/' ∉ s) : splitSlash s = [s] := by
  induction s with
  | nil => rfl
  | cons c rest ih =>
    simp only [List.mem_cons] at h
    push_neg at h
    have hc : ¬ c = '/' := fun hcc => h.1 hcc.symm
    simp only [splitSlash, if_neg hc, ih h.2]

theorem splitSlash_append (g rest : List Char) (hg : '/' ∉ g) :
    splitSlash (g ++ '/' :: rest) = g :: splitSlash rest := by
  induction g with
  | nil => simp [splitSlash]
  | cons c g' ih =>
    simp only [List.mem_cons] at hg
    push_neg at hg
    have hc : ¬ c = '/' := fun hcc => hg.1 hcc.symm
    have ih' := ih hg.2
    simp only [List.cons_append, splitSlash, if_neg hc]
    rw [show g'.append ('/' :: rest) = g' ++ '/' :: rest from rfl, ih']

theorem splitSlash_head (s : List Char) :
    (splitSlash s).head? = some (s.takeWhile fun c => c != '/') := by
  induction s with
  | nil => rfl
  | cons c rest ih =>
    simp only [splitSlash, List.takeWhile]
    by_cases hc : c = '/'
    · subst hc
      simp
    · rw [if_neg hc]
      cases hsr : splitSlash rest with
      | nil => exact absurd hsr (splitSlash_ne_nil rest)
      | cons hh tt =>
        rw [hsr] at ih
        simp only [List.head?] at ih
        have hne : (c != '/') = true := bne_iff_ne.mpr hc
        simp [hne, ← Option.some_inj.mp ih]

/-- The group/name fields of `Comparison::new`, as the first two
`'/'`-separated components. -/
theorem new_name_group (nm : String) (bs : List Benchmark) :
    ((Comparison.new nm bs).group, (Comparison.new nm bs).name) =
      match splitOnSlash nm with
      | g :: n :: _ => (some g, n)
      | [p] => (none, p)
      | [] => (none, "") := by
  unfold Comparison.new
  split <;> (dsimp only; split <;> rfl)

end Critcmp

namespace Critcmp

/-- C10: `Benchmark::name(self, name)` returns a copy whose `name` field is
the argument and whose `nanoseconds`, `stddev` and `throughput` fields are
unchanged. -/
theorem benchmark_rename_spec (b : Benchmark) (s : String) :
    (b.rename s).name = s ∧ (b.rename s).nanoseconds = b.nanoseconds
      ∧ (b.rename s).stddev = b.stddev ∧ (b.rename s).throughput = b.throughput :=
  ⟨rfl, rfl, rfl, rfl⟩

/-- C1: `drop_under(t)` removes exactly the comparisons whose
`biggest_difference()` is `≤ t`, keeps the survivors in their relative
order (the result is a sublist), leaves the configuration alone, and a
second application with the same or a smaller threshold is the
identity. -/
theorem drop_under_spec (cs : Comparisons) (t t' : ℚ) :
    (∀ c, c ∈ (cs.drop_under t).comps ↔ c ∈ cs.comps ∧ ¬ c.biggest_difference ≤ t)
    ∧ (cs.drop_under t).comps.Sublist cs.comps
    ∧ (cs.drop_under t).config = cs.config
    ∧ (t' ≤ t → (cs.drop_under t).drop_under t' = cs.drop_under t) := by
  refine ⟨?_, List.filter_sublist _, rfl, ?_⟩
  · intro c
    simp [Comparisons.drop_under, List.mem_filter, not_le]
  · intro ht
    unfold Comparisons.drop_under
    congr 1
    refine List.filter_eq_self.mpr ?_
    intro c hc
    have hgt : t < c.biggest_difference := of_decide_eq_true (List.mem_filter.mp hc).2
    exact decide_eq_true (lt_of_le_of_lt ht hgt)

/-- C8 (counterexample): on the identifier `"a/b/c"` the comparison's name
is only the second segment `"b"`, not the whole remainder `"b/c"` after
the first separator. -/
theorem name_split_counterexample :
    (Comparison.new "a/b/c" []).name = "b" ∧ (Comparison.new "a/b/c" []).name ≠ "b/c" := by
  decide

/-- C8 (amended): with no `'/'` in the identifier the whole identifier is
the name and the group is absent; otherwise the part before the first
`'/'` is the group and the segment between the first and second `'/'`
(not the whole remainder) is the name. -/
theorem name_split_amended (nm : String) (bs : List Benchmark) :
    ('/' ∉ nm.data → (Comparison.new nm bs).group = none ∧ (Comparison.new nm bs).name = nm)
    ∧ (∀ g rest, nm.data = g ++ '/' :: rest → '/' ∉ g →
        (Comparison.new nm bs).group = some (String.mk g)
          ∧ (Comparison.new nm bs).name = String.mk (rest.takeWhile fun c => c != '/')) := by
  have hng := new_name_group nm bs
  constructor
  · intro h
    have hs : splitOnSlash nm = [String.mk nm.data] := by
      unfold splitOnSlash
      rw [splitSlash_no_slash h]
      rfl
    rw [hs] at hng
    exact ⟨congrArg Prod.fst hng, congrArg Prod.snd hng⟩
  · intro g rest hdata hg
    have hsplit : splitSlash nm.data = g :: splitSlash rest := by
      rw [hdata]
      exact splitSlash_append g rest hg
    cases hsr : splitSlash rest with
    | nil => exact absurd hsr (splitSlash_ne_nil rest)
    | cons hh tt =>
      have hhead := splitSlash_head rest
      rw [hsr] at hhead
      have hhh : hh = rest.takeWhile fun c => c != '/' := by simpa using hhead
      have hs : splitOnSlash nm = String.mk g :: String.mk hh :: tt.map String.mk := by
        unfold splitOnSlash
        rw [hsplit, hsr]
        rfl
      rw [hs] at hng
      refine ⟨congrArg Prod.fst hng, ?_⟩
      have h2 := congrArg Prod.snd hng
      rw [hhh] at h2
      exact h2

/-- C9: `worst()` is `none` on an empty comparison (the wrapped index
misses the empty ordering) and otherwise the entry at performance rank
`count - 1`, which is a slowest benchmark. -/
theorem worst_spec (nm : String) (l : List Benchmark)
    (hn : (l.map Benchmark.name).Nodup) : WorstClaim nm l := by
  refine ⟨?_, ?_⟩
  · rintro rfl
    rfl
  · intro hne hlen
    have hpos : 0 < l.length := List.length_pos.mpr hne
    have hslen : (sortByNanos l).length = l.length := (sortByNanos_perm l).length_eq
    have hidx : (l.length + 18446744073709551615) % 18446744073709551616 = l.length - 1 := by
      omega
    obtain ⟨wb, hwb⟩ : ∃ wb, (sortByNanos l).get? (l.length - 1) = some wb := by
      cases hw : (sortByNanos l).get? (l.length - 1) with
      | none =>
        exfalso
        have := List.get?_eq_none.mp hw
        omega
      | some wb => exact ⟨wb, rfl⟩
    refine ⟨wb, ?_, ?_, ?_, ?_⟩
    · rw [worst_new nm hn, hidx]
      exact hwb
    · rw [worst_new nm hn, hidx, new_perf_length, get_by_perf_new nm hn]
    · exact (sortByNanos_perm l).subset (List.get?_mem hwb)
    · intro b hb
      refine sorted_get_last_max (sortByNanos_sorted l) ?_ b
        (((sortByNanos_perm l).mem_iff).mpr hb)
      rw [hslen]
      exact hwb

end Critcmp

namespace Critcmp

/-- C2: `biggest_difference()` is `0` below two benchmarks; with at least
two it is `((worst - best) / best) * 100` for the actual extremes of the
duration multiset, and it does not change when the input list is
permuted. -/
theorem biggest_difference_spec (nm : String) (l : List Benchmark)
    (hn : (l.map Benchmark.name).Nodup) : BiggestDifferenceClaim nm l := by
  refine ⟨?_, ?_, ?_⟩
  · intro h2
    rw [bd_formula nm hn, if_pos h2]
  · intro h2 hlen
    have hslen : (sortByNanos l).length = l.length := (sortByNanos_perm l).length_eq
    have hidx : (l.length + 18446744073709551615) % 18446744073709551616 = l.length - 1 := by
      omega
    obtain ⟨bb, hbb⟩ : ∃ bb, (sortByNanos l).get? 0 = some bb := by
      cases hw : (sortByNanos l).get? 0 with
      | none =>
        exfalso
        have := List.get?_eq_none.mp hw
        omega
      | some bb => exact ⟨bb, rfl⟩
    obtain ⟨wb, hwb⟩ : ∃ wb, (sortByNanos l).get? (l.length - 1) = some wb := by
      cases hw : (sortByNanos l).get? (l.length - 1) with
      | none =>
        exfalso
        have := List.get?_eq_none.mp hw
        omega
      | some wb => exact ⟨wb, rfl⟩
    refine ⟨bb, wb, ?_, ?_, ?_, ?_, ?_, ?_⟩
    · rw [best_new nm hn]
      exact hbb
    · rw [worst_new nm hn, hidx]
      exact hwb
    · exact (sortByNanos_perm l).subset (List.get?_mem hbb)
    · exact (sortByNanos_perm l).subset (List.get?_mem hwb)
    · intro b hb
      have hb' : b ∈ sortByNanos l := ((sortByNanos_perm l).mem_iff).mpr hb
      refine ⟨sorted_get_head_min (sortByNanos_sorted l) hbb b hb', ?_⟩
      refine sorted_get_last_max (sortByNanos_sorted l) ?_ b hb'
      rw [hslen]
      exact hwb
    · rw [bd_formula nm hn, if_neg (by omega), hidx, List.get?_map, List.get?_map, hbb, hwb]
      rfl
  · intro l' hp
    have hn' : (l'.map Benchmark.name).Nodup := ((hp.map Benchmark.name).nodup_iff).mp hn
    rw [bd_formula nm hn', bd_formula nm hn, ← hp.length_eq, ← sortByNanos_map_nanos_perm hp]

/-- C3: `cmdline_ordered` is exactly the input order, `perf_ordered` is
the stable ascending duration sort (sorted, a permutation, ties in input
order), both are permutations of the benchmark map's keys, and an empty
input yields empty fields without failure. -/
theorem orderings_spec (nm : String) (l : List Benchmark)
    (hn : (l.map Benchmark.name).Nodup) : OrderingsClaim nm l := by
  refine ⟨new_cmdline nm l, new_perf nm l, sortByNanos_perm l, sortByNanos_sorted l,
    sortByNanos_filter l, ?_, ?_, ?_⟩
  · rw [new_perf, new_benchmarks]
    exact ((sortByNanos_perm l).map Benchmark.name).trans (keys_btreeOfList hn).symm
  · rw [new_cmdline, new_benchmarks]
    exact (keys_btreeOfList hn).symm
  · rintro rfl
    exact ⟨rfl, rfl, rfl⟩

/-- C5: in Benchmark ranking mode the cell is green-bold exactly when the
current duration equals `best()`'s duration — the minimum of the
comparison — and uncolored otherwise, so every benchmark tied at the
minimum is colored. -/
theorem benchmark_color_spec (cs : Comparisons) (nm : String) (l : List Benchmark)
    (current : ℚ) (hn : (l.map Benchmark.name).Nodup) (hne : l ≠ []) :
    BenchColorClaim cs nm l current := by
  have hpos : 0 < l.length := List.length_pos.mpr hne
  have hslen : (sortByNanos l).length = l.length := (sortByNanos_perm l).length_eq
  obtain ⟨bb, hbb⟩ : ∃ bb, (sortByNanos l).get? 0 = some bb := by
    cases hw : (sortByNanos l).get? 0 with
    | none =>
      exfalso
      have := List.get?_eq_none.mp hw
      omega
    | some bb => exact ⟨bb, rfl⟩
  refine ⟨bb, ?_, ?_, ?_, ?_, ?_⟩
  · rw [best_new nm hn]
    exact hbb
  · exact (sortByNanos_perm l).subset (List.get?_mem hbb)
  · intro b hb
    exact sorted_get_head_min (sortByNanos_sorted l) hbb b
      (((sortByNanos_perm l).mem_iff).mpr hb)
  · unfold Comparisons.set_colors_benchmark_mode
    rw [best_new nm hn, hbb]
    dsimp only [Option.map_some', Option.getD_some]
    split_ifs with h
    · exact iff_of_true rfl h.symm
    · exact iff_of_false (by simp) fun hc => h hc.symm
  · unfold Comparisons.set_colors_benchmark_mode
    rw [best_new nm hn, hbb]
    dsimp only [Option.map_some', Option.getD_some]
    split_ifs with h
    · exact iff_of_false (by simp) fun hc => hc h.symm
    · exact iff_of_true rfl fun hc => h hc.symm

end Critcmp

namespace Critcmp

/-- C4: in Baseline ranking mode, for a non-empty comparison the cell's
color is exactly the claim's `|diff|`-threshold policy applied to
`diff = current / first().nanoseconds - 1`: no color under 0.03, normal
weight under 0.1, bold from 0.1, red when slower and green when not, and
`diff = 0` uncolored. -/
theorem baseline_color_spec (cs : Comparisons) (nm : String) (b : Benchmark)
    (rest : List Benchmark) (current : ℚ)
    (hn : ((b :: rest).map Benchmark.name).Nodup) :
    cs.set_colors_baseline_mode (Comparison.new nm (b :: rest)) current =
      baselineColorSpec (current / b.nanoseconds - 1) := by
  unfold Comparisons.set_colors_baseline_mode baselineColorSpec
  rw [first_new nm hn]
  dsimp only [Option.map_some', Option.getD_some]
  by_cases h0 : 0 < current / b.nanoseconds - 1
  · rw [abs_of_pos h0]
    simp only [if_pos h0]
  · have hle : current / b.nanoseconds - 1 ≤ 0 := not_lt.mp h0
    rw [abs_of_nonpos hle]
    simp only [if_neg h0]

/-- C6: the time formatter picks "ns"/"µs"/"ms"/"s" exactly on the stated
intervals of the raw nanosecond value, divides by the matching divisor,
and prints value to one and stddev to two decimal places joined by `±`. -/
theorem time_spec (n : ℚ) (sd : Option ℚ) (h0 : 0 ≤ n) : TimeClaim n sd := by
  refine ⟨?_, ?_, ?_, ?_, ?_, ?_, ?_, ?_, ?_, ?_⟩
  · unfold timeUnit
    split_ifs with h1 h2 h3
    · exact iff_of_true rfl h1
    · exact iff_of_false (by decide) h1
    · exact iff_of_false (by decide) h1
    · exact iff_of_false (by decide) h1
  · unfold timeUnit
    split_ifs with h1 h2 h3
    · exact iff_of_false (by decide) fun hc => absurd h1 (not_lt.mpr hc.1)
    · exact iff_of_true rfl ⟨not_lt.mp h1, h2⟩
    · exact iff_of_false (by decide) fun hc => h2 hc.2
    · exact iff_of_false (by decide) fun hc => h2 hc.2
  · unfold timeUnit
    split_ifs with h1 h2 h3
    · refine iff_of_false (by decide) fun hc => ?_
      have := hc.1
      linarith
    · refine iff_of_false (by decide) fun hc => ?_
      have := hc.1
      linarith
    · exact iff_of_true rfl ⟨not_lt.mp h2, h3⟩
    · exact iff_of_false (by decide) fun hc => h3 hc.2
  · unfold timeUnit
    split_ifs with h1 h2 h3
    · refine iff_of_false (by decide) fun hc => ?_
      linarith
    · refine iff_of_false (by decide) fun hc => ?_
      linarith
    · refine iff_of_false (by decide) fun hc => ?_
      linarith
    · exact iff_of_true rfl (not_lt.mp h3)
  · intro h
    unfold timeUnit
    rw [if_pos h]
  · intro hge hlt
    unfold timeUnit
    rw [if_neg (not_lt.mpr hge), if_pos hlt]
  · intro hge hlt
    unfold timeUnit
    rw [if_neg (by linarith), if_neg (not_lt.mpr hge), if_pos hlt]
  · intro hge
    unfold timeUnit
    rw [if_neg (by linarith), if_neg (by linarith), if_neg (not_lt.mpr hge)]
  · rintro rfl
    rfl
  · intro s hs
    subst hs
    rfl

/-- C7: the throughput formatter prints the fixed placeholder for an
absent value, tags byte counts "B" and element counts "Elem", and selects
truncated-integer / K / M / G scaling exactly on the stated binary
thresholds. -/
theorem throughput_spec (t : ℚ) (u : String) (h0 : 0 ≤ t) : ThroughputClaim t u := by
  have e10 : (2 : ℚ) ^ 10 = 1024 := by norm_num
  have e20 : (2 : ℚ) * 2 ^ 20 = 2097152 := by norm_num
  have e20' : (2 : ℚ) ^ 20 = 1048576 := by norm_num
  have e30 : (2 : ℚ) * 2 ^ 30 = 2147483648 := by norm_num
  have e30' : (2 : ℚ) ^ 30 = 1073741824 := by norm_num
  refine ⟨rfl, rfl, rfl, ?_, ?_, ?_, ?_⟩
  · intro hlt
    unfold throughput_per
    rw [if_pos hlt]
    have htr : truncU64 t = ⌊t⌋.toNat := by
      unfold truncU64
      split_ifs with hle
      · have ht0 : t = 0 := le_antisymm hle h0
        simp [ht0]
      · have hfl : ⌊t⌋ < 2048 := Int.floor_lt.mpr (by exact_mod_cast hlt)
        exact min_eq_left (by omega)
    rw [htr]
  · intro hge hlt
    rw [e20] at hlt
    unfold throughput_per
    rw [if_neg (not_lt.mpr hge), if_pos hlt, e10]
  · intro hge hlt
    rw [e20] at hge
    rw [e30] at hlt
    unfold throughput_per
    rw [if_neg (by linarith), if_neg (not_lt.mpr hge), if_pos hlt, e20']
  · intro hge
    rw [e30] at hge
    unfold throughput_per
    rw [if_neg (by linarith), if_neg (by linarith), if_neg (not_lt.mpr hge), e30']

end Critcmp

namespace Critcmp

/-- Witness for C2 at a concrete two-benchmark comparison. -/
theorem biggest_difference_spec_witness :
    (([⟨"x", 100, none, none⟩, ⟨"y", 50, none, none⟩] : List Benchmark).map
        Benchmark.name).Nodup
      ∧ BiggestDifferenceClaim "g" [⟨"x", 100, none, none⟩, ⟨"y", 50, none, none⟩] :=
  ⟨by decide, biggest_difference_spec "g" _ (by decide)⟩

/-- Witness for C3 at a concrete two-benchmark comparison. -/
theorem orderings_spec_witness :
    (([⟨"x", 100, none, none⟩, ⟨"y", 50, none, none⟩] : List Benchmark).map
        Benchmark.name).Nodup
      ∧ OrderingsClaim "g/a" [⟨"x", 100, none, none⟩, ⟨"y", 50, none, none⟩] :=
  ⟨by decide, orderings_spec "g/a" _ (by decide)⟩

/-- Witness for C4 at a concrete one-benchmark comparison and a cell 3%
over the baseline. -/
theorem baseline_color_spec_witness :
    (([⟨"x", 100, none, none⟩] : List Benchmark).map Benchmark.name).Nodup
      ∧ (Comparisons.mk [] ⟨false, RankingConfig.baseline, ValueFormat.real⟩
          ).set_colors_baseline_mode (Comparison.new "g" [⟨"x", 100, none, none⟩]) 103 =
        baselineColorSpec (103 / 100 - 1) :=
  ⟨by decide, baseline_color_spec _ "g" ⟨"x", 100, none, none⟩ [] 103 (by decide)⟩

/-- Witness for C5 at a concrete two-benchmark comparison. -/
theorem benchmark_color_spec_witness :
    (([⟨"x", 100, none, none⟩, ⟨"y", 50, none, none⟩] : List Benchmark).map
        Benchmark.name).Nodup
      ∧ ([⟨"x", 100, none, none⟩, ⟨"y", 50, none, none⟩] : List Benchmark) ≠ []
      ∧ BenchColorClaim (Comparisons.mk [] ⟨false, RankingConfig.benchmark, ValueFormat.real⟩)
          "g" [⟨"x", 100, none, none⟩, ⟨"y", 50, none, none⟩] 50 :=
  ⟨by decide, by decide, benchmark_color_spec _ "g" _ 50 (by decide) (by decide)⟩

/-- Witness for C6 at 2500 ns with a stddev. -/
theorem time_spec_witness : (0 : ℚ) ≤ 2500 ∧ TimeClaim 2500 (some 10) :=
  ⟨by decide, time_spec 2500 (some 10) (by decide)⟩

/-- Witness for C7 at 5000 bytes per second. -/
theorem throughput_spec_witness : (0 : ℚ) ≤ 5000 ∧ ThroughputClaim 5000 "B" :=
  ⟨by decide, throughput_spec 5000 "B" (by decide)⟩

/-- Witness for C9 at a concrete two-benchmark comparison. -/
theorem worst_spec_witness :
    (([⟨"x", 100, none, none⟩, ⟨"y", 50, none, none⟩] : List Benchmark).map
        Benchmark.name).Nodup
      ∧ WorstClaim "g" [⟨"x", 100, none, none⟩, ⟨"y", 50, none, none⟩] :=
  ⟨by decide, worst_spec "g" _ (by decide)⟩

end Critcmp
